import Mathlib

/-!
Shallow embedding of the pooling/aggregation core of the repository
(`src/core/embeddings/llama_cpp.py`) and of the configuration-lookup
helpers (`src/core/utils.py`), with theorems checking the specification's
claims against these definitions.

Numeric values are modelled by `ℚ`.  A numpy reduction along axis 0 of a
rectangular `n × D` array is a left fold of the elementwise operation over
the rows; numpy's behaviour on an empty input differs per operation
(`np.mean` silently yields a NaN scalar, `np.max` raises `ValueError`),
which the result type `NpResult` records explicitly.
-/

/-- Elementwise addition of two equal-length vectors (one step of
`np.sum`/`np.mean` along axis 0). -/
def vecAdd (a b : List ℚ) : List ℚ := List.zipWith (· + ·) a b

/-- Elementwise maximum of two equal-length vectors (one step of
`np.max` along axis 0). -/
def vecMax (a b : List ℚ) : List ℚ := List.zipWith max a b

/-- Result of a numpy pooling call: a proper vector, the silent NaN scalar
that `np.mean` produces on a zero-size input, or a raised `ValueError`. -/
inductive NpResult where
  | vec (v : List ℚ)
  | nanScalar
  | valueError (msg : String)
deriving DecidableEq

/-- Column-wise sum of a rectangular matrix, as numpy computes it inside
`np.mean(array, axis=0)`: fold elementwise addition over the rows. -/
def np_sum0 : List (List ℚ) → List ℚ
  | [] => []
  | r :: rest => rest.foldl vecAdd r

/-- Column-wise maximum of a rectangular matrix, as numpy computes it in
`np.max(array, axis=0)`: fold elementwise max over the rows. -/
def np_max0 : List (List ℚ) → List ℚ
  | [] => []
  | r :: rest => rest.foldl vecMax r

/-- `LlamaCppEmbeddings.average_pooling`: `np.mean(np.array(tokens), axis=0)`.
On an empty token list, `np.array([])` is a zero-size 1-D array and
`np.mean` returns a NaN scalar (with only a RuntimeWarning); otherwise the
column means, i.e. the column sums divided by the number of rows. -/
def average_pooling (token_embeddings : List (List ℚ)) : NpResult :=
  if token_embeddings.isEmpty then NpResult.nanScalar
  else NpResult.vec
    ((np_sum0 token_embeddings).map (fun x => x / (token_embeddings.length : ℚ)))

/-- `LlamaCppEmbeddings.max_pooling`: `np.max(np.array(tokens), axis=0)`.
On an empty token list numpy raises
`ValueError: zero-size array to reduction operation maximum which has no identity`;
otherwise the columnwise maxima. -/
def max_pooling (token_embeddings : List (List ℚ)) : NpResult :=
  if token_embeddings.isEmpty then
    NpResult.valueError "zero-size array to reduction operation maximum which has no identity"
  else NpResult.vec (np_max0 token_embeddings)

/-- `LlamaCppEmbeddings.concatenate_pooling`: computes `average_pooling`,
then `max_pooling`, then `np.concatenate((avg, max))`.  A `ValueError`
raised by either sub-call propagates (the average is evaluated first, so
its error would win, though in fact only `max_pooling` can raise). -/
def concatenate_pooling (token_embeddings : List (List ℚ)) : NpResult :=
  match average_pooling token_embeddings, max_pooling token_embeddings with
  | NpResult.valueError e, _ => NpResult.valueError e
  | _, NpResult.valueError e => NpResult.valueError e
  | NpResult.vec a, NpResult.vec m => NpResult.vec (a ++ m)
  | _, _ => NpResult.valueError "zero-dimensional arrays cannot be concatenated"

/-- `LlamaCppEmbeddings.get_embeddings` (the live code path): loop over the
texts in order, call `self.llm.embed(text)` on each, and append the result.
The provider call is abstracted as the function argument `embed`. -/
def get_embeddings (embed : String → List ℚ) (texts : List String) : List (List ℚ) :=
  texts.foldl (fun embeddings text => embeddings ++ [embed text]) []

/-- The sequence of texts on which `get_embeddings`'s loop invokes
`self.llm.embed`, in call order: one call per loop iteration. -/
def get_embeddings_calls (texts : List String) : List String :=
  texts.foldl (fun calls text => calls ++ [text]) []

/-- JSON values as far as the configuration helpers need them. -/
inductive Json where
  | str (s : String)
  | num (n : Int)
  | obj (fields : List (String × Json))

/-- Lookup in a JSON object / Python dict, modelled as an association
list with distinct keys: `data.get(key)` without a default. -/
def jsonGet (fields : List (String × Json)) (key : String) : Option Json :=
  (fields.find? (fun p => p.1 == key)).map Prod.snd

/-- `get_value_by_key_json` from `src/core/utils.py`, after `read_json` has
produced the dict `data`: `data.get(key, "Key not found")`. -/
def get_value_by_key_json (data : List (String × Json)) (key : String) : Json :=
  match jsonGet data key with
  | some v => v
  | none => Json.str "Key not found"

/-- Python subscript `v[k]` on a JSON value: key lookup when `v` is an
object (KeyError when absent), TypeError otherwise. -/
def Json.subscript (v : Json) (key : String) : Except String Json :=
  match v with
  | Json.obj fields =>
      match jsonGet fields key with
      | some w => Except.ok w
      | none => Except.error ("KeyError: " ++ key)
  | _ => Except.error "TypeError: value is not subscriptable"

/-- `get_prompt` from `src/core/utils.py`, after `read_json` has produced
`json_data`: if the key is present return the pair
`(json_data[key]["system_prompt"], json_data[key]["user_prompt"])`,
otherwise raise `KeyError("The key '<key>' does not exist in the JSON data.")`. -/
def get_prompt (json_data : List (String × Json)) (key_name : String) :
    Except String (Json × Json) :=
  match jsonGet json_data key_name with
  | some v => do
      let s ← v.subscript "system_prompt"
      let u ← v.subscript "user_prompt"
      pure (s, u)
  | none =>
      Except.error ("The key '" ++ key_name ++ "' does not exist in the JSON data.")

/-! ## Helper lemmas on elementwise folds -/

/-- Entry `i` of an elementwise zip of two sufficiently long vectors. -/
theorem vecOp_getD (f : ℚ → ℚ → ℚ) (a b : List ℚ) (i : ℕ)
    (h1 : i < a.length) (h2 : i < b.length) :
    (List.zipWith f a b).getD i 0 = f (a.getD i 0) (b.getD i 0) := by
  have hz : i < (List.zipWith f a b).length := by
    simp only [List.length_zipWith]; omega
  rw [List.getD_eq_getElem _ _ hz, List.getD_eq_getElem _ _ h1, List.getD_eq_getElem _ _ h2]
  exact List.getElem_zipWith (h := hz)

/-- Folding an elementwise zip over rows of width `D` keeps width `D`. -/
theorem foldl_zipWith_length (f : ℚ → ℚ → ℚ) (D : ℕ) (rows : List (List ℚ)) :
    ∀ acc : List ℚ, acc.length = D → (∀ r ∈ rows, r.length = D) →
      (rows.foldl (List.zipWith f) acc).length = D := by
  induction rows with
  | nil => intro acc h _; simpa using h
  | cons r rest ih =>
    intro acc hacc hrect
    simp only [List.foldl_cons]
    apply ih
    · simp [List.length_zipWith, hacc, hrect r (by simp)]
    · intro r2 hr2; exact hrect r2 (by simp [hr2])

/-- Entry `i` of a fold of elementwise zips is the scalar fold of the
entries `i` of the rows. -/
theorem foldl_zipWith_getD (f : ℚ → ℚ → ℚ) (D i : ℕ) (hi : i < D) (rows : List (List ℚ)) :
    ∀ acc : List ℚ, acc.length = D → (∀ r ∈ rows, r.length = D) →
      (rows.foldl (List.zipWith f) acc).getD i 0 =
        (rows.map (fun r => r.getD i 0)).foldl f (acc.getD i 0) := by
  induction rows with
  | nil => intro acc _ _; rfl
  | cons r rest ih =>
    intro acc hacc hrect
    simp only [List.foldl_cons, List.map_cons]
    rw [ih (List.zipWith f acc r)
        (by simp [List.length_zipWith, hacc, hrect r (by simp)])
        (fun r2 hr2 => hrect r2 (by simp [hr2]))]
    rw [vecOp_getD f acc r i (by omega) (by rw [hrect r (by simp)]; omega)]

/-- Scalar left fold of addition equals the initial value plus the sum. -/
theorem foldl_add_eq_add_sum (l : List ℚ) : ∀ a : ℚ, l.foldl (· + ·) a = a + l.sum := by
  induction l with
  | nil => intro a; simp
  | cons x rest ih => intro a; simp [List.foldl_cons, ih, add_assoc]

/-- Scalar left fold of `max` is an upper bound of the initial value and
all list elements, and is attained by one of them. -/
theorem foldl_max_spec (l : List ℚ) : ∀ a : ℚ,
    a ≤ l.foldl max a ∧ (∀ x ∈ l, x ≤ l.foldl max a) ∧
      (l.foldl max a = a ∨ l.foldl max a ∈ l) := by
  induction l with
  | nil => intro a; exact ⟨le_refl a, by simp, Or.inl rfl⟩
  | cons x rest ih =>
    intro a
    obtain ⟨h1, h2, h3⟩ := ih (max a x)
    refine ⟨le_trans (le_max_left a x) h1, ?_, ?_⟩
    · intro y hy
      rcases List.mem_cons.mp hy with rfl | hmem
      · exact le_trans (le_max_right a y) h1
      · exact h2 y hmem
    · rcases h3 with heq | hmem
      · rcases max_choice a x with hca | hcx
        · left; rw [List.foldl_cons, heq, hca]
        · right; rw [List.foldl_cons, heq, hcx]; exact List.mem_cons_self x rest
      · right; simp only [List.foldl_cons, List.mem_cons]; exact Or.inr hmem

/-- Two rational vectors agreeing in length and in every `getD` entry are equal. -/
theorem list_eq_of_getD (a b : List ℚ) (hlen : a.length = b.length)
    (h : ∀ i, i < a.length → a.getD i 0 = b.getD i 0) : a = b := by
  apply List.ext_get hlen
  intro i h1 h2
  have hi := h i h1
  rwa [List.getD_eq_getElem _ _ h1, List.getD_eq_getElem _ _ h2] at hi

/-- Width of the numpy column sum of a non-empty rectangular matrix. -/
theorem np_sum0_length (D : ℕ) (t : List (List ℚ)) (ht : t ≠ [])
    (hrect : ∀ r ∈ t, r.length = D) : (np_sum0 t).length = D := by
  match t, ht with
  | r :: rest, _ =>
    exact foldl_zipWith_length (· + ·) D rest r (hrect r (by simp))
      (fun r2 h => hrect r2 (by simp [h]))

/-- Entry `i` of the numpy column sum is the sum of the entries `i` of the rows. -/
theorem np_sum0_getD (D i : ℕ) (hi : i < D) (t : List (List ℚ)) (ht : t ≠ [])
    (hrect : ∀ r ∈ t, r.length = D) :
    (np_sum0 t).getD i 0 = (t.map (fun r => r.getD i 0)).sum := by
  match t, ht with
  | r :: rest, _ =>
    have hfold := foldl_zipWith_getD (· + ·) D i hi rest r (hrect r (by simp))
      (fun r2 h => hrect r2 (by simp [h]))
    have : np_sum0 (r :: rest) = rest.foldl (List.zipWith (· + ·)) r := rfl
    rw [this, hfold, foldl_add_eq_add_sum, List.map_cons, List.sum_cons]

/-- Width of the numpy column maximum of a non-empty rectangular matrix. -/
theorem np_max0_length (D : ℕ) (t : List (List ℚ)) (ht : t ≠ [])
    (hrect : ∀ r ∈ t, r.length = D) : (np_max0 t).length = D := by
  match t, ht with
  | r :: rest, _ =>
    exact foldl_zipWith_length max D rest r (hrect r (by simp))
      (fun r2 h => hrect r2 (by simp [h]))

/-- Entry `i` of the numpy column maximum bounds every row's entry `i`
from above and is attained by some row. -/
theorem np_max0_spec (D i : ℕ) (hi : i < D) (t : List (List ℚ)) (ht : t ≠ [])
    (hrect : ∀ r ∈ t, r.length = D) :
    (∀ r ∈ t, r.getD i 0 ≤ (np_max0 t).getD i 0) ∧
      (∃ r ∈ t, (np_max0 t).getD i 0 = r.getD i 0) := by
  match t, ht with
  | r :: rest, _ =>
    have hfold := foldl_zipWith_getD max D i hi rest r (hrect r (by simp))
      (fun r2 h => hrect r2 (by simp [h]))
    have hdef : np_max0 (r :: rest) = rest.foldl (List.zipWith max) r := rfl
    obtain ⟨h1, h2, h3⟩ := foldl_max_spec (rest.map (fun r => r.getD i 0)) (r.getD i 0)
    constructor
    · intro r2 hr2
      rcases List.mem_cons.mp hr2 with rfl | hm
      · rw [hdef, hfold]; exact h1
      · rw [hdef, hfold]; exact h2 _ (List.mem_map.mpr ⟨r2, hm, rfl⟩)
    · rcases h3 with heq | hmem
      · exact ⟨r, by simp, by rw [hdef, hfold, heq]⟩
      · obtain ⟨r2, hr2, hval⟩ := List.mem_map.mp hmem
        exact ⟨r2, by simp [hr2], by rw [hdef, hfold, ← hval]⟩

/-! ## Claim theorems: pooling -/

/-- C1: for every non-empty sequence of token vectors all of dimension `D`,
`average_pooling` returns a vector of dimension `D` whose element `i` is
the arithmetic mean over all token vectors of their element `i`. -/
theorem average_pooling_is_columnwise_mean (D : ℕ) (t : List (List ℚ)) (ht : t ≠ [])
    (hrect : ∀ r ∈ t, r.length = D) :
    ∃ v : List ℚ, average_pooling t = NpResult.vec v ∧ v.length = D ∧
      ∀ i, i < D → v.getD i 0 = (t.map (fun r => r.getD i 0)).sum / (t.length : ℚ) := by
  refine ⟨(np_sum0 t).map (fun x => x / (t.length : ℚ)), ?_, ?_, ?_⟩
  · unfold average_pooling
    rw [if_neg (by simpa [List.isEmpty_iff] using ht)]
  · rw [List.length_map]; exact np_sum0_length D t ht hrect
  · intro i hi
    have hlen : i < (np_sum0 t).length := by rw [np_sum0_length D t ht hrect]; exact hi
    have hlenm : i < ((np_sum0 t).map (fun x => x / (t.length : ℚ))).length := by
      rwa [List.length_map]
    rw [List.getD_eq_getElem _ _ hlenm, List.getElem_map,
      ← List.getD_eq_getElem _ _ hlen, np_sum0_getD D i hi t ht hrect]

/-- C1 witness: the spec's own example `[[1,2],[3,4],[5,6]]` with `D = 2`. -/
theorem average_pooling_is_columnwise_mean_witness :
    ∃ v : List ℚ, average_pooling [[1,2],[3,4],[5,6]] = NpResult.vec v ∧ v.length = 2 ∧
      ∀ i, i < 2 → v.getD i 0 =
        (([[(1:ℚ),2],[3,4],[5,6]]).map (fun r => r.getD i 0)).sum /
          (([[(1:ℚ),2],[3,4],[5,6]]).length : ℚ) :=
  average_pooling_is_columnwise_mean 2 [[1,2],[3,4],[5,6]] (by decide) (by decide)

/-- C2: for every non-empty sequence of token vectors all of dimension `D`,
`max_pooling` returns a vector of dimension `D` whose element `i` is the
elementwise maximum over all token vectors of their element `i` (an upper
bound attained by some token vector), not a norm-based selection. -/
theorem max_pooling_is_elementwise_max (D : ℕ) (t : List (List ℚ)) (ht : t ≠ [])
    (hrect : ∀ r ∈ t, r.length = D) :
    ∃ v : List ℚ, max_pooling t = NpResult.vec v ∧ v.length = D ∧
      ∀ i, i < D → (∀ r ∈ t, r.getD i 0 ≤ v.getD i 0) ∧
        ∃ r ∈ t, v.getD i 0 = r.getD i 0 := by
  refine ⟨np_max0 t, ?_, np_max0_length D t ht hrect,
    fun i hi => np_max0_spec D i hi t ht hrect⟩
  unfold max_pooling
  rw [if_neg (by simpa [List.isEmpty_iff] using ht)]

/-- C2 witness: the spec's own example `[[1,2],[3,4],[5,6]]` with `D = 2`. -/
theorem max_pooling_is_elementwise_max_witness :
    ∃ v : List ℚ, max_pooling [[1,2],[3,4],[5,6]] = NpResult.vec v ∧ v.length = 2 ∧
      ∀ i, i < 2 → (∀ r ∈ [[(1:ℚ),2],[3,4],[5,6]], r.getD i 0 ≤ v.getD i 0) ∧
        ∃ r ∈ [[(1:ℚ),2],[3,4],[5,6]], v.getD i 0 = r.getD i 0 :=
  max_pooling_is_elementwise_max 2 [[1,2],[3,4],[5,6]] (by decide) (by decide)

/-- C3: for every non-empty rectangular input, `concatenate_pooling`
returns the `average_pooling` vector immediately followed by the
`max_pooling` vector, of total dimension `2 * D`, average first. -/
theorem concatenate_pooling_avg_then_max (D : ℕ) (t : List (List ℚ)) (ht : t ≠ [])
    (hrect : ∀ r ∈ t, r.length = D) :
    ∃ a m : List ℚ, average_pooling t = NpResult.vec a ∧ max_pooling t = NpResult.vec m ∧
      concatenate_pooling t = NpResult.vec (a ++ m) ∧ (a ++ m).length = 2 * D ∧
      (a ++ m).take D = a ∧ (a ++ m).drop D = m := by
  obtain ⟨a, havg, halen, -⟩ := average_pooling_is_columnwise_mean D t ht hrect
  obtain ⟨m, hmax, hmlen, -⟩ := max_pooling_is_elementwise_max D t ht hrect
  refine ⟨a, m, havg, hmax, ?_, ?_, ?_, ?_⟩
  · unfold concatenate_pooling
    rw [havg, hmax]
  · rw [List.length_append, halen, hmlen]; omega
  · rw [← halen]; exact List.take_left a m
  · rw [← halen]; exact List.drop_left a m

/-- C3 witness: the spec's own example `[[1,2],[3,4],[5,6]]` with `D = 2`. -/
theorem concatenate_pooling_avg_then_max_witness :
    ∃ a m : List ℚ, average_pooling [[1,2],[3,4],[5,6]] = NpResult.vec a ∧
      max_pooling [[1,2],[3,4],[5,6]] = NpResult.vec m ∧
      concatenate_pooling [[1,2],[3,4],[5,6]] = NpResult.vec (a ++ m) ∧
      (a ++ m).length = 2 * 2 ∧ (a ++ m).take 2 = a ∧ (a ++ m).drop 2 = m :=
  concatenate_pooling_avg_then_max 2 [[1,2],[3,4],[5,6]] (by decide) (by decide)

/-- C4 counterexample: on the empty token sequence, `average_pooling` does
not fail at all — it silently returns numpy's NaN scalar, which is not a
raised error. -/
theorem empty_average_pooling_returns_nan_silently :
    average_pooling ([] : List (List ℚ)) = NpResult.nanScalar ∧
      NpResult.nanScalar ≠ NpResult.valueError
        "zero-size array to reduction operation maximum which has no identity" :=
  ⟨rfl, fun h => NpResult.noConfusion h⟩

/-- C4 amended: on an empty token sequence, `max_pooling` and
`concatenate_pooling` fail with numpy's zero-size-reduction `ValueError`
(not a designated empty-sequence error), while `average_pooling` silently
returns a NaN scalar instead of failing; none of them returns a zero
vector. -/
theorem empty_sequence_pooling_behavior :
    average_pooling ([] : List (List ℚ)) = NpResult.nanScalar ∧
    max_pooling ([] : List (List ℚ)) = NpResult.valueError
      "zero-size array to reduction operation maximum which has no identity" ∧
    concatenate_pooling ([] : List (List ℚ)) = NpResult.valueError
      "zero-size array to reduction operation maximum which has no identity" :=
  ⟨rfl, rfl, rfl⟩

/-- C5: pooling is order-invariant — permuting the non-empty rectangular
token sequence changes neither `average_pooling` nor `max_pooling`. -/
theorem pooling_permutation_invariant (D : ℕ) (t t2 : List (List ℚ))
    (hp : List.Perm t t2) (ht : t ≠ []) (hrect : ∀ r ∈ t, r.length = D) :
    average_pooling t = average_pooling t2 ∧ max_pooling t = max_pooling t2 := by
  have ht2 : t2 ≠ [] := fun h => ht (List.Perm.eq_nil (h ▸ hp))
  have hrect2 : ∀ r ∈ t2, r.length = D := fun r hr => hrect r (hp.mem_iff.mpr hr)
  have hlen : t.length = t2.length := hp.length_eq
  have hsum_eq : np_sum0 t = np_sum0 t2 := by
    apply list_eq_of_getD
    · rw [np_sum0_length D t ht hrect, np_sum0_length D t2 ht2 hrect2]
    · intro i hilt
      have hi : i < D := by rwa [np_sum0_length D t ht hrect] at hilt
      rw [np_sum0_getD D i hi t ht hrect, np_sum0_getD D i hi t2 ht2 hrect2]
      exact (hp.map (fun r => r.getD i 0)).sum_eq
  have hmax_eq : np_max0 t = np_max0 t2 := by
    apply list_eq_of_getD
    · rw [np_max0_length D t ht hrect, np_max0_length D t2 ht2 hrect2]
    · intro i hilt
      have hi : i < D := by rwa [np_max0_length D t ht hrect] at hilt
      obtain ⟨hub, r, hr, hval⟩ := np_max0_spec D i hi t ht hrect
      obtain ⟨hub2, r2, hr2, hval2⟩ := np_max0_spec D i hi t2 ht2 hrect2
      apply le_antisymm
      · rw [hval]; exact hub2 r (hp.mem_iff.mp hr)
      · rw [hval2]; exact hub r2 (hp.mem_iff.mpr hr2)
  constructor
  · unfold average_pooling
    rw [if_neg (by simpa [List.isEmpty_iff] using ht),
      if_neg (by simpa [List.isEmpty_iff] using ht2), hsum_eq, hlen]
  · unfold max_pooling
    rw [if_neg (by simpa [List.isEmpty_iff] using ht),
      if_neg (by simpa [List.isEmpty_iff] using ht2), hmax_eq]

/-- C5 witness: swapping the two rows of a concrete sequence. -/
theorem pooling_permutation_invariant_witness :
    average_pooling [[(1:ℚ),2],[3,4]] = average_pooling [[(3:ℚ),4],[1,2]] ∧
      max_pooling [[(1:ℚ),2],[3,4]] = max_pooling [[(3:ℚ),4],[1,2]] :=
  pooling_permutation_invariant 2 [[1,2],[3,4]] [[3,4],[1,2]]
    (List.Perm.swap [3,4] [1,2] []) (by decide) (by decide)

/-- C6: on a single-vector sequence `[v]`, `average_pooling` and
`max_pooling` both return `v`, and the two halves of
`concatenate_pooling`'s output both equal `v`. -/
theorem single_vector_pooling_identity (v : List ℚ) :
    average_pooling [v] = NpResult.vec v ∧ max_pooling [v] = NpResult.vec v ∧
      concatenate_pooling [v] = NpResult.vec (v ++ v) ∧
      (v ++ v).take v.length = v ∧ (v ++ v).drop v.length = v := by
  have havg : average_pooling [v] = NpResult.vec v := by
    unfold average_pooling
    rw [if_neg (by simp)]
    congr 1
    have hs : np_sum0 [v] = v := rfl
    rw [hs]
    simp
  have hmax : max_pooling [v] = NpResult.vec v := rfl
  refine ⟨havg, hmax, ?_, List.take_left v v, List.drop_left v v⟩
  unfold concatenate_pooling
  rw [havg, hmax]

/-! ## Claim theorems: batch driver and configuration lookups -/

/-- The append-accumulating loop of `get_embeddings` is a map over the texts. -/
theorem get_embeddings_eq_map (f : String → List ℚ) (ts : List String) :
    get_embeddings f ts = ts.map f := by
  have key : ∀ (l : List String) (acc : List (List ℚ)),
      l.foldl (fun embeddings text => embeddings ++ [f text]) acc = acc ++ l.map f := by
    intro l
    induction l with
    | nil => intro acc; simp
    | cons x rest ih => intro acc; simp [List.foldl_cons, ih]
  simpa using key ts []

/-- C7: `get_embeddings` returns one vector per input text, in input order:
the output has the same length as the input and the `i`-th output vector is
the provider's embedding of the `i`-th input text. -/
theorem get_embeddings_one_per_text_in_order (f : String → List ℚ) (ts : List String) :
    (get_embeddings f ts).length = ts.length ∧
      ∀ i : ℕ, (get_embeddings f ts)[i]? = (ts[i]?).map f := by
  rw [get_embeddings_eq_map]
  exact ⟨List.length_map ts f, fun i => List.getElem?_map f ts i⟩

/-- C8: an empty input batch yields an empty output and the loop performs
no provider embedding call. -/
theorem get_embeddings_empty_batch (f : String → List ℚ) :
    get_embeddings f [] = [] ∧ get_embeddings_calls [] = [] :=
  ⟨rfl, rfl⟩

/-- C9: a missing key in a configuration lookup yields an explicit
not-found signal surfaced immediately to the caller: `get_value_by_key_json`
returns the "Key not found" marker and `get_prompt` raises its KeyError. -/
theorem missing_key_lookups_signal_not_found (data pdata : List (String × Json))
    (key pkey : String) (h1 : jsonGet data key = none) (h2 : jsonGet pdata pkey = none) :
    get_value_by_key_json data key = Json.str "Key not found" ∧
      get_prompt pdata pkey =
        Except.error ("The key '" ++ pkey ++ "' does not exist in the JSON data.") := by
  constructor
  · unfold get_value_by_key_json; rw [h1]
  · unfold get_prompt; rw [h2]

/-- C9 witness: a one-entry model config missing the key "b", and an empty
prompt config missing the key "p". -/
theorem missing_key_lookups_signal_not_found_witness :
    get_value_by_key_json [("a", Json.num 512)] "b" = Json.str "Key not found" ∧
      get_prompt [] "p" =
        Except.error ("The key '" ++ "p" ++ "' does not exist in the JSON data.") :=
  missing_key_lookups_signal_not_found [("a", Json.num 512)] [] "b" "p" rfl rfl

/-- C10: `get_value_by_key_json` returns the very same value for a mapping
in which the key is absent and for a mapping in which the key is genuinely
bound to the string "Key not found" — the caller cannot tell the two cases
apart from the result. -/
theorem key_not_found_result_ambiguous (d1 d2 : List (String × Json)) (key : String)
    (h1 : jsonGet d1 key = none)
    (h2 : jsonGet d2 key = some (Json.str "Key not found")) :
    get_value_by_key_json d1 key = get_value_by_key_json d2 key := by
  unfold get_value_by_key_json
  rw [h1, h2]

/-- C10 witness: the empty mapping versus one genuinely binding "m" to the
string "Key not found". -/
theorem key_not_found_result_ambiguous_witness :
    get_value_by_key_json [] "m" =
      get_value_by_key_json [("m", Json.str "Key not found")] "m" :=
  key_not_found_result_ambiguous [] [("m", Json.str "Key not found")] "m" rfl rfl
